import Mathlib

/-!
Verification development for the Speech_Language_Processing repository.

Shallow embedding of:
- the regular-expression tokenizer and vocabulary pipeline of
  `FundamentalAlgorithms/nltktokenization.py`,
- the ELIZA-style responder of `FundamentalAlgorithms/patternmatching.py`,
- the generic findall helper of `FundamentalAlgorithms/regularexpressions1.py`,

together with theorems settling the specification claims.

Python regular expressions are embedded by an abstract syntax tree `Re` for the
fragment of the language the repository uses, and a backtracking matcher that
returns every way to match a prefix of the input, in the priority order of the
CPython `re` engine (alternatives left to right, quantifiers greedy); the first
full-length result is the one `fullmatch` reports, and the scanning loop of
`findall` takes the first result at each position.  Strings are Lean `String`s
(unicode code points, as in Python 3); `str.lower` and `re.IGNORECASE` are
modelled by ASCII case folding, which is exact on every string the repository
manipulates.
-/

namespace SLP

/-- The apostrophe character (U+0027) as a one-character string. -/
def apos : String := String.singleton (Char.ofNat 39)

/-- Capture groups recorded so far: an association list from group number to
captured characters, most recent capture first (Python keeps the last
repetition of a group). -/
abbrev Groups := List (Nat × List Char)

/-- Abstract syntax for the fragment of Python regular expressions used by the
repository: literal characters, character classes given by a decidable
predicate, sequencing, alternation (tried left to right), greedy star, plus
and option, and numbered capture groups. -/
inductive Re where
  | eps
  | chr (c : Char)
  | cls (f : Char → Bool)
  | seq (a b : Re)
  | alt (a b : Re)
  | star (r : Re)
  | plus (r : Re)
  | opt (r : Re)
  | grp (i : Nat) (r : Re)

/-- Character comparison: `re.IGNORECASE` compares case-insensitively
(modelled by ASCII lowercasing), otherwise characters must be equal. -/
def charMatch (ci : Bool) (c d : Char) : Bool :=
  if ci then c.toLower == d.toLower else c == d

/-- Greedy Kleene star of a matching function, in the backtracking order of the
Python engine: longer iteration sequences first, the empty iteration last.  A
body iteration that consumes nothing ends the loop (Python refuses to repeat
an empty match).  The fuel argument is always called with at least the length
of the input, which makes the fuel-exhausted branch agree with the loop
semantics: when fuel reaches zero the input is empty and no body iteration
could consume anything. -/
def starF (body : List Char → Groups → List (List Char × Groups)) :
    Nat → List Char → Groups → List (List Char × Groups)
  | 0, s, g => [(s, g)]
  | Nat.succ fuel, s, g =>
      ((body s g).flatMap fun p =>
        if p.1.length < s.length then starF body fuel p.1 p.2 else []) ++ [(s, g)]

/-- Backtracking matcher: every way to match a prefix of the input, as pairs of
(remaining input, capture groups), in engine priority order.  A capture group
records the characters its body consumed. -/
def reMatch (ci : Bool) : Re → List Char → Groups → List (List Char × Groups)
  | .eps, s, g => [(s, g)]
  | .chr _, [], _ => []
  | .chr c, d :: s, g => if charMatch ci c d then [(s, g)] else []
  | .cls _, [], _ => []
  | .cls f, d :: s, g => if f d then [(s, g)] else []
  | .seq a b, s, g => (reMatch ci a s g).flatMap fun p => reMatch ci b p.1 p.2
  | .alt a b, s, g => reMatch ci a s g ++ reMatch ci b s g
  | .star r, s, g => starF (reMatch ci r) s.length s g
  | .plus r, s, g =>
      (reMatch ci r s g).flatMap fun p =>
        if p.1.length < s.length then starF (reMatch ci r) p.1.length p.1 p.2 else [p]
  | .opt r, s, g => reMatch ci r s g ++ [(s, g)]
  | .grp i r, s, g =>
      (reMatch ci r s g).map fun p => (p.1, (i, s.take (s.length - p.1.length)) :: p.2)

/-- Python `pattern.fullmatch`: the first backtracking result that consumes the
whole input; yields its capture groups. -/
def fullmatchRe (ci : Bool) (r : Re) (s : List Char) : Option Groups :=
  ((reMatch ci r s []).find? fun p => p.1.isEmpty).map (·.2)

/-- Content of capture group `i`: the most recent capture, or `[]` when the
group did not participate in the match (Python findall renders it as ""). -/
def groupOf (g : Groups) (i : Nat) : List Char :=
  ((g.find? fun p => p.1 == i).map (·.2)).getD []

/-- The scanning loop behind Python `findall`: report the first match of `r`
at the current position, resume after the matched text, and advance by one
character after a failure or a zero-width match.  Each reported entry is
(matched characters, capture groups of that match).  The fuel argument is
always called with more than the length of the input, so the zero branch is
unreachable. -/
def scanF (ci : Bool) (r : Re) : Nat → List Char → List (List Char × Groups)
  | 0, _ => []
  | Nat.succ fuel, s =>
    match (reMatch ci r s []).head? with
    | some p =>
        if p.1.length < s.length then
          (s.take (s.length - p.1.length), p.2) :: scanF ci r fuel p.1
        else
          match s with
          | [] => [([], p.2)]
          | _ :: s' => ([], p.2) :: scanF ci r fuel s'
    | none =>
      match s with
      | [] => []
      | _ :: s' => scanF ci r fuel s'

/-- Python `re.findall` scanning over an input. -/
def scanFindall (ci : Bool) (r : Re) (s : List Char) : List (List Char × Groups) :=
  scanF ci r (s.length + 1) s

/-- Whitespace as recognized by Python `str.strip` and `str.split` (the ASCII
whitespace characters space, tab, newline, carriage return, vertical tab and
form feed; the repository never feeds unicode spaces). -/
def isWs (c : Char) : Bool :=
  c.toNat == 32 || c.toNat == 9 || c.toNat == 10 || c.toNat == 13 ||
    c.toNat == 11 || c.toNat == 12

/-- Python `str.lower` on one character, ASCII range: map the letters A-Z
(codes 65 to 90) to a-z (codes 97 to 122). -/
def pyLowerChar (c : Char) : Char :=
  if decide (65 ≤ c.toNat) && decide (c.toNat ≤ 90) then Char.ofNat (c.toNat + 32)
  else c

/-- Python `str.strip()`: drop leading and trailing whitespace. -/
def pyStripL (l : List Char) : List Char :=
  ((l.dropWhile isWs).reverse.dropWhile isWs).reverse

/-- Helper for `pyWords`: accumulate the current word (reversed) while walking
the input. -/
def pySplitAux : List Char → List Char → List (List Char)
  | [], acc => if acc.isEmpty then [] else [acc.reverse]
  | c :: cs, acc =>
    if isWs c then
      if acc.isEmpty then pySplitAux cs [] else acc.reverse :: pySplitAux cs []
    else pySplitAux cs (c :: acc)

/-- Python `str.split()` with no argument: the maximal runs of non-whitespace
characters, in order; leading, trailing and repeated whitespace produce no
empty words. -/
def pyWords (l : List Char) : List (List Char) := pySplitAux l []

/-- `" ".join`: interleave a single space between consecutive words. -/
def joinWords : List (List Char) → List Char
  | [] => []
  | [w] => w
  | w :: ws => w ++ ' ' :: joinWords ws

/-- The `reflections` dictionary of patternmatching.py, in source order. -/
def reflections : List (String × String) := [
  ("am", "are"), ("was", "were"), ("i", "you"),
  ("i" ++ apos ++ "d", "you would"), ("i" ++ apos ++ "ll", "you will"),
  ("i" ++ apos ++ "ve", "you have"), ("i" ++ apos ++ "m", "you are"),
  ("my", "your"), ("are", "am"), ("were", "was"),
  ("you" ++ apos ++ "ve", "I have"), ("you" ++ apos ++ "ll", "I will"),
  ("you" ++ apos ++ "d", "I would"), ("your", "my"),
  ("yours", "mine"), ("you", "I"), ("me", "you")]

/-- `reflections.get(token, token)`: the mapped value when the word is a key,
the word itself otherwise. -/
def reflectWord (w : String) : String :=
  ((reflections.find? fun p => p.1 == w).map (·.2)).getD w

/-- `reflect` from patternmatching.py: lowercase the fragment, split it on
whitespace, pass each word through the reflections table, and join the words
back with single spaces. -/
def reflect (fragment : String) : String :=
  ⟨joinWords ((pyWords (fragment.data.map pyLowerChar)).map
      fun w => (reflectWord ⟨w⟩).data)⟩

/-- Python `str.lower` on a string (ASCII case folding). -/
def pyLower (s : String) : String := ⟨s.data.map pyLowerChar⟩

/-- Joining a list of words with single spaces, as the specification words
it: "rejoins the words with single spaces". -/
def joinSpace (ws : List String) : String := ⟨joinWords (ws.map String.data)⟩

/-- The characters matched by an unescaped `.` without `re.DOTALL`: everything
except a newline. -/
def dotChar (c : Char) : Bool := c != '\n'

/-- A sequence of literal characters. -/
def litL : List Char → Re
  | [] => .eps
  | c :: cs => .seq (.chr c) (litL cs)

/-- The regex denoted by a literal string. -/
def lit (s : String) : Re := litL s.data

/-- The capture group `(.+)`. -/
def capPlusDot : Re := .grp 1 (.plus (.cls dotChar))

/-- The catch-all capture group `(.*)`. -/
def capStarDot : Re := .grp 1 (.star (.cls dotChar))

/-- The ELIZA rule table of patternmatching.py: each pattern (compiled with
`re.IGNORECASE`) paired with its response function, which receives capture
group 1 of the full match. -/
def elizaRules : List (Re × (String → String)) := [
  (.seq (lit "I need ") capPlusDot,
    fun g => "Why do you need " ++ reflect g ++ "?"),
  (.seq (lit ("Why don" ++ apos ++ "t you ")) (.seq capPlusDot (.opt (.chr '?'))),
    fun g => "Do you really think I don" ++ apos ++ "t " ++ reflect g ++ "?"),
  (.seq (lit ("Why can" ++ apos ++ "t I ")) (.seq capPlusDot (.opt (.chr '?'))),
    fun g => "Maybe you could " ++ reflect g ++ " if you tried."),
  (.seq (lit ("I can" ++ apos ++ "t ")) capPlusDot,
    fun g => "What makes you think you can" ++ apos ++ "t " ++ reflect g ++ "?"),
  (.seq (lit "I am ") capPlusDot,
    fun g => "How long have you been " ++ reflect g ++ "?"),
  (.seq (lit ("I" ++ apos ++ "m ")) capPlusDot,
    fun g => "Why are you " ++ reflect g ++ "?"),
  (.seq (lit "I feel ") capPlusDot,
    fun g => "Tell me more about feeling " ++ reflect g ++ "."),
  (capStarDot, fun _ => "Please tell me more.")]

/-- The rule loop of `get_eliza_response`: fire the first rule whose pattern
fullmatches the stripped input. -/
def scanRules : List (Re × (String → String)) → List Char → Option String
  | [], _ => none
  | (r, f) :: rest, t =>
    match fullmatchRe true r t with
    | some g => some (f ⟨groupOf g 1⟩)
    | none => scanRules rest t

/-- The reply returned after the rule loop of `get_eliza_response`. -/
def elizaFallback : String :=
  "I" ++ apos ++ "m not sure I understand. Can you elaborate?"

/-- `get_eliza_response` from patternmatching.py: strip the input, try the
rules in order, and fall back to a fixed reply if no rule matched. -/
def get_eliza_response (user_input : String) : String :=
  (scanRules elizaRules (pyStripL user_input.data)).getD elizaFallback

/-- The class `[A-Z]` of the tokenizer pattern. -/
def upperAZ (c : Char) : Bool := decide (65 ≤ c.toNat) && decide (c.toNat ≤ 90)

/-- The class `\w` (word character), modelled for the ASCII range: letters,
digits and underscore. -/
def wordChar (c : Char) : Bool := c.isAlpha || c.isDigit || c == '_'

/-- The class `\d` (decimal digit), ASCII range. -/
def digitChar (c : Char) : Bool := c.isDigit

/-- The fixed punctuation class of the tokenizer pattern, exactly as the UTF-8
source file reads: the listed characters, the range from colon (0x3A) to
underscore (0x5F) written `:-_`, and the three characters U+00E2, U+20AC,
U+02DC that appear literally at the end of the class. -/
def punctChar (c : Char) : Bool :=
  c == ']' || c == '[' || c == '.' || c == ',' || c == ';' ||
  c == Char.ofNat 34 || c == Char.ofNat 39 || c == '?' || c == '(' || c == ')' ||
  (decide (58 ≤ c.toNat) && decide (c.toNat ≤ 95)) ||
  c == Char.ofNat 226 || c == Char.ofNat 8364 || c == Char.ofNat 732

/-- First tokenizer alternative `([A-Z]\.)+`: abbreviations such as U.S.A.;
the parentheses are capture group 1. -/
def abbrevAlt : Re := .plus (.grp 1 (.seq (.cls upperAZ) (.chr '.')))

/-- Second tokenizer alternative `\w+(-\w+)*`: words with optional internal
hyphens; the parentheses are capture group 2. -/
def wordAlt : Re :=
  .seq (.plus (.cls wordChar))
    (.star (.grp 2 (.seq (.chr '-') (.plus (.cls wordChar)))))

/-- Third tokenizer alternative `\$?\d+(\.\d+)?%?`: currency and percentages;
the parentheses are capture group 3. -/
def numAlt : Re :=
  .seq (.opt (.chr '$'))
    (.seq (.plus (.cls digitChar))
      (.seq (.opt (.grp 3 (.seq (.chr '.') (.plus (.cls digitChar)))))
        (.opt (.chr '%'))))

/-- Fourth tokenizer alternative `\.\.\.`: the ellipsis. -/
def ellipsisAlt : Re := .seq (.chr '.') (.seq (.chr '.') (.chr '.'))

/-- The tokenizer pattern of nltktokenization.py, with its five alternatives
in source order and its three capture groups numbered in order of the opening
parentheses. -/
def nltkPattern : Re :=
  .alt abbrevAlt (.alt wordAlt (.alt numAlt (.alt ellipsisAlt (.cls punctChar))))

/-- `tokenize_text` from nltktokenization.py.  NLTK `regexp_tokenize` calls
`re.findall` on the compiled pattern; because the pattern contains three
capture groups, `findall` returns, for every non-overlapping match, the
3-tuple of the captured group contents (with "" for a group that did not
participate) instead of the matched text. -/
def tokenize_text (text : String) : List (String × String × String) :=
  (scanFindall false nltkPattern text.data).map fun m =>
    (⟨groupOf m.2 1⟩, ⟨groupOf m.2 2⟩, ⟨groupOf m.2 3⟩)

/-- `compute_vocabulary`: the set of distinct tokens, modelled as the
deduplicated list, together with its size. -/
def compute_vocabulary (tokens : List (String × String × String)) :
    Nat × List (String × String × String) :=
  (tokens.dedup.length, tokens.dedup)

/-- `heaps_law_estimation`: `k * num_tokens ** beta`.  Python float arithmetic
is modelled by the real numbers; `**` is real exponentiation. -/
noncomputable def heaps_law_estimation (num_tokens : Nat) (beta k : ℝ) : ℝ :=
  k * (num_tokens : ℝ) ^ beta

/-- The values computed (and printed) by `text_analysis_pipeline`. -/
structure AnalysisResult where
  numTokens : Nat
  vocabSize : Nat
  vocabulary : List (String × String × String)
  estimatedVocabSize : ℝ

/-- `text_analysis_pipeline` from nltktokenization.py: `if not text` raises
ValueError — Python truth testing of a string is emptiness, so only the empty
string raises — otherwise tokenize, compute the vocabulary, and apply the
Heaps law estimate with the default parameters beta = 0.7, k = 10.0. -/
noncomputable def text_analysis_pipeline (text : String) :
    Except String AnalysisResult :=
  if text = "" then .error "Text input cannot be empty."
  else
    let tokens := tokenize_text text
    let v := compute_vocabulary tokens
    .ok ⟨tokens.length, v.1, v.2, heaps_law_estimation tokens.length 0.7 10.0⟩

/-- Whether a pipeline run signalled the ValueError. -/
def pipelineFails (r : Except String AnalysisResult) : Bool :=
  match r with
  | .error _ => true
  | .ok _ => false

/-- Quantifier modes of the Python engine: greedy (longest first), lazy
(shortest first, the `?` suffix), possessive (longest only, no backtracking,
the `+` suffix of Python 3.11). -/
inductive QMode where
  | greedy
  | lzy
  | poss

/-- Abstract syntax for the patterns accepted by the modelled `re.compile` of
the findall helper: everything `Re` has, plus the zero-width assertions
(word boundaries `\\b`/`\\B`, the anchors `^`/`\\A`, `$`, `\\Z`), the three
quantifier modes, and backreferences.  The assertions need the character to
the left of the current position, so the matcher for `Rx` threads that left
context; the responder and tokenizer patterns use none of these constructs,
which is why their matcher (`reMatch`) does not. -/
inductive Rx where
  | eps
  | chr (c : Char)
  | cls (f : Char → Bool)
  | bnd (word : Bool)
  | bol
  | eol
  | eos
  | seq (a b : Rx)
  | alt (a b : Rx)
  | star (r : Rx) (m : QMode)
  | plus (r : Rx) (m : QMode)
  | opt (r : Rx) (m : QMode)
  | grp (i : Nat) (r : Rx)
  | bref (i : Nat)

/-- The zero-width assertion atoms, which Python refuses to quantify
("nothing to repeat"). -/
def rxIsAssert : Rx → Bool
  | .bnd _ => true
  | .bol => true
  | .eol => true
  | .eos => true
  | _ => false

/-- Word boundary test of `\\b`: exactly one of the character to the left and
the character to the right is a word character. -/
def atBoundary (prev : Option Char) (s : List Char) : Bool :=
  (match prev with
   | none => false
   | some c => wordChar c) !=
  (match s with
   | [] => false
   | d :: _ => wordChar d)

/-- Left context after part of the input has been consumed: the character
just before the remaining input (matching only ever leaves a suffix). -/
def nextPrev (prev : Option Char) (s rest : List Char) : Option Char :=
  if s.length = rest.length then prev
  else (s.take (s.length - rest.length)).getLast?

/-- Consume an occurrence of `cap` from the front of `s` (character
comparison as the engine does it); used by backreferences. -/
def ciDropLit (ci : Bool) : List Char → List Char → Option (List Char)
  | [], s => some s
  | _ :: _, [] => none
  | c :: cs, d :: s => if charMatch ci c d then ciDropLit ci cs s else none

/-- Greedy star over a context-threading matching function, in engine
backtracking order; same fuel convention as `starF`. -/
def gStarF (body : Option Char → List Char → Groups → List (List Char × Groups)) :
    Nat → Option Char → List Char → Groups → List (List Char × Groups)
  | 0, _, s, g => [(s, g)]
  | Nat.succ fuel, prev, s, g =>
      ((body prev s g).flatMap fun p =>
        if p.1.length < s.length then gStarF body fuel (nextPrev prev s p.1) p.1 p.2
        else []) ++ [(s, g)]

/-- Lazy star: the empty iteration first, then longer ones. -/
def lStarF (body : Option Char → List Char → Groups → List (List Char × Groups)) :
    Nat → Option Char → List Char → Groups → List (List Char × Groups)
  | 0, _, s, g => [(s, g)]
  | Nat.succ fuel, prev, s, g =>
      (s, g) :: ((body prev s g).flatMap fun p =>
        if p.1.length < s.length then lStarF body fuel (nextPrev prev s p.1) p.1 p.2
        else [])

/-- Backtracking matcher for `Rx`: like `reMatch`, with the character to the
left of the current position threaded through for the zero-width assertions,
lazy and possessive quantifier modes (possessive keeps only the first, i.e.
longest, result, as an atomic group does), and backreferences matching the
recorded capture (an unset group fails to match, as in Python). -/
def rxMatch (ci : Bool) : Rx → Option Char → List Char → Groups → List (List Char × Groups)
  | .eps, _, s, g => [(s, g)]
  | .chr _, _, [], _ => []
  | .chr c, _, d :: s, g => if charMatch ci c d then [(s, g)] else []
  | .cls _, _, [], _ => []
  | .cls f, _, d :: s, g => if f d then [(s, g)] else []
  | .bnd word, prev, s, g => if atBoundary prev s == word then [(s, g)] else []
  | .bol, prev, s, g =>
      (match prev with
       | none => [(s, g)]
       | some _ => [])
  | .eol, _, s, g => if s.isEmpty || s == ['\n'] then [(s, g)] else []
  | .eos, _, s, g => if s.isEmpty then [(s, g)] else []
  | .seq a b, prev, s, g =>
      (rxMatch ci a prev s g).flatMap fun p =>
        rxMatch ci b (nextPrev prev s p.1) p.1 p.2
  | .alt a b, prev, s, g => rxMatch ci a prev s g ++ rxMatch ci b prev s g
  | .star r m, prev, s, g =>
      (match m with
       | .greedy => gStarF (rxMatch ci r) s.length prev s g
       | .lzy => lStarF (rxMatch ci r) s.length prev s g
       | .poss => (gStarF (rxMatch ci r) s.length prev s g).take 1)
  | .plus r m, prev, s, g =>
      (match m with
       | .greedy =>
          (rxMatch ci r prev s g).flatMap fun p =>
            if p.1.length < s.length then
              gStarF (rxMatch ci r) p.1.length (nextPrev prev s p.1) p.1 p.2
            else [p]
       | .lzy =>
          (rxMatch ci r prev s g).flatMap fun p =>
            if p.1.length < s.length then
              lStarF (rxMatch ci r) p.1.length (nextPrev prev s p.1) p.1 p.2
            else [p]
       | .poss =>
          ((rxMatch ci r prev s g).flatMap fun p =>
            if p.1.length < s.length then
              gStarF (rxMatch ci r) p.1.length (nextPrev prev s p.1) p.1 p.2
            else [p]).take 1)
  | .opt r m, prev, s, g =>
      (match m with
       | .greedy => rxMatch ci r prev s g ++ [(s, g)]
       | .lzy => (s, g) :: rxMatch ci r prev s g
       | .poss => (rxMatch ci r prev s g ++ [(s, g)]).take 1)
  | .grp i r, prev, s, g =>
      (rxMatch ci r prev s g).map fun p =>
        (p.1, (i, s.take (s.length - p.1.length)) :: p.2)
  | .bref i, _, s, g =>
      (match g.find? fun p => p.1 == i with
       | none => []
       | some entry =>
          match ciDropLit ci entry.2 s with
          | none => []
          | some rest => [(rest, g)])

/-- The findall scanning loop for `Rx`, threading the left context so the
assertions see the true position in the whole string; same fuel convention
as `scanF`. -/
def rxScanF (ci : Bool) (r : Rx) : Nat → Option Char → List Char → List (List Char × Groups)
  | 0, _, _ => []
  | Nat.succ fuel, prev, s =>
    match (rxMatch ci r prev s []).head? with
    | some p =>
        if p.1.length < s.length then
          (s.take (s.length - p.1.length), p.2) :: rxScanF ci r fuel (nextPrev prev s p.1) p.1
        else
          match s with
          | [] => [([], p.2)]
          | c :: s' => ([], p.2) :: rxScanF ci r fuel (some c) s'
    | none =>
      match s with
      | [] => []
      | c :: s' => rxScanF ci r fuel (some c) s'

/-- Python `re.findall` scanning for `Rx` patterns (default flags, as in
`find_all_matches`). -/
def rxFindall (r : Rx) (s : List Char) : List (List Char × Groups) :=
  rxScanF false r (s.length + 1) none s

/-- Escapes accepted outside character classes, modelling `re.compile`: the
shorthand classes `\\d \\D \\w \\W \\s \\S`, the assertions
`\\b \\B \\A \\Z`, the NUL escape `\\0`, and escaped punctuation.
An escaped letter outside this list is a bad escape, as in CPython
(hex/unicode escapes are outside the model); escaped non-zero digits are
backreferences and handled by the parser, which sees the group count. -/
def escAtom (c : Char) : Option Rx :=
  if c == 'd' then some (.cls digitChar)
  else if c == 'D' then some (.cls fun e => !digitChar e)
  else if c == 'w' then some (.cls wordChar)
  else if c == 'W' then some (.cls fun e => !wordChar e)
  else if c == 's' then some (.cls isWs)
  else if c == 'S' then some (.cls fun e => !isWs e)
  else if c == 'b' then some (.bnd true)
  else if c == 'B' then some (.bnd false)
  else if c == 'A' then some .bol
  else if c == 'Z' then some .eos
  else if c == '0' then some (.chr (Char.ofNat 0))
  else if c.isAlpha || c.isDigit then none
  else some (.chr c)

/-- Escapes accepted inside character classes. -/
def escClsItem (c : Char) : Option (Char → Bool) :=
  if c == 'd' then some digitChar
  else if c == 'D' then some (fun e => !digitChar e)
  else if c == 'w' then some wordChar
  else if c == 'W' then some (fun e => !wordChar e)
  else if c == 's' then some isWs
  else if c == 'S' then some (fun e => !isWs e)
  else if c.isAlpha || c.isDigit then none
  else some (fun e => e == c)

/-- Parse the items of a character class up to the closing bracket; each item
is a single character, an escape, or a range `a-z` (rejected when its bounds
are inverted, as in CPython). -/
def parseClsItems : Nat → List Char → Option (List (Char → Bool) × List Char)
  | 0, _ => none
  | Nat.succ _, [] => none
  | Nat.succ fuel, c :: cs =>
    if c == ']' then some ([], cs)
    else if c == '\\' then
      match cs with
      | [] => none
      | d :: ds =>
        match escClsItem d with
        | none => none
        | some f => (parseClsItems fuel ds).map fun r => (f :: r.1, r.2)
    else
      match cs with
      | '-' :: d :: ds =>
        if d == ']' then
          (parseClsItems fuel ('-' :: d :: ds)).map fun r =>
            ((fun e => e == c) :: r.1, r.2)
        else if d == '\\' then none
        else if decide (c.toNat ≤ d.toNat) then
          (parseClsItems fuel ds).map fun r =>
            ((fun e => decide (c.toNat ≤ e.toNat) && decide (e.toNat ≤ d.toNat)) :: r.1, r.2)
        else none
      | _ =>
        (parseClsItems fuel cs).map fun r => ((fun e => e == c) :: r.1, r.2)

/-- Parse a character class after its opening bracket: optional negation, a
leading `]` taken literally, then items until the closing bracket. -/
def parseClass (fuel : Nat) (l : List Char) : Option ((Char → Bool) × List Char) :=
  let negSplit : Bool × List Char :=
    match l with
    | '^' :: rest => (true, rest)
    | _ => (false, l)
  let start : Option (List (Char → Bool) × List Char) :=
    match negSplit.2 with
    | ']' :: rest => (parseClsItems fuel rest).map fun r =>
        ((fun e => e == ']') :: r.1, r.2)
    | _ => parseClsItems fuel negSplit.2
  start.map fun r =>
    ((fun c =>
      if negSplit.1 then !(r.1.any fun f => f c) else r.1.any fun f => f c), r.2)

/-- Parse the interior of a `{m}`, `{m,}`, `{,n}` or `{m,n}` repetition after
the opening brace: lower bound, optional upper bound, and the rest after the
closing brace; `none` when the braces do not spell a repetition (the brace is
then a literal, as in CPython). -/
def braceBounds (l : List Char) : Option (Nat × Option Nat × List Char) :=
  let ds1 := l.takeWhile Char.isDigit
  let r1 := l.drop ds1.length
  let v1 : Nat := ds1.foldl (fun a c => a * 10 + (c.toNat - 48)) 0
  match r1 with
  | [] => none
  | c :: rest =>
    if c == Char.ofNat 125 then
      if ds1.isEmpty then none else some (v1, some v1, rest)
    else if c == ',' then
      let ds2 := rest.takeWhile Char.isDigit
      let r2 := rest.drop ds2.length
      let v2 : Nat := ds2.foldl (fun a c => a * 10 + (c.toNat - 48)) 0
      match r2 with
      | [] => none
      | c2 :: rest2 =>
        if c2 == Char.ofNat 125 then
          if ds1.isEmpty && ds2.isEmpty then none
          else some ((if ds1.isEmpty then 0 else v1),
            (if ds2.isEmpty then none else some v2), rest2)
        else none
    else none

/-- The quantifier beginning the given input, when there is one: `*`, `+`,
`?`, or a brace repetition. -/
inductive QKind where
  | qstar
  | qplus
  | qopt
  | qrep (lo : Nat) (hi : Option Nat)

/-- Recognize a quantifier at the front of the input. -/
def quantKind : List Char → Option (QKind × List Char)
  | '*' :: t => some (.qstar, t)
  | '+' :: t => some (.qplus, t)
  | '?' :: t => some (.qopt, t)
  | c :: t =>
    if c == Char.ofNat 123 then
      (braceBounds t).map fun b => (.qrep b.1 b.2.1, b.2.2)
    else none
  | [] => none

/-- `lo` mandatory copies of a repetition body. -/
def repCopies (r : Rx) : Nat → Rx
  | 0 => .eps
  | Nat.succ n => .seq r (repCopies r n)

/-- `n` nested optional copies: with greedy options the longest number of
iterations is tried first and with lazy options the shortest, exactly the
engine order for a bounded repetition. -/
def repOpts (r : Rx) (m : QMode) : Nat → Rx
  | 0 => .eps
  | Nat.succ n => .opt (.seq r (repOpts r m n)) m

/-- Desugar a `{lo,hi}` repetition: the mandatory copies followed by the
optional rest (a star when unbounded).  A group inside the body keeps one
number, and the copies reuse it, so the last matched repetition wins as in
the engine. -/
def desugarRep (r : Rx) (m : QMode) (lo : Nat) : Option Nat → Rx
  | none => .seq (repCopies r lo) (.star r m)
  | some hi => .seq (repCopies r lo) (repOpts r m (hi - lo))

/-- Nonterminals of the pattern grammar: alternation, sequence, atom. -/
inductive PMode where
  | alt
  | sq
  | atom

/-- Recursive-descent parser modelling `re.compile` (default flags) on the
syntax the repository and its callers exercise: literals (a lone `]`, `}` or
non-repetition `{` is a literal, as in CPython), `.`, the escapes of
`escAtom`, backreferences, character classes, capturing and `(?:`
non-capturing and `(?P<name>` named groups numbered by order of the opening
parentheses, alternation, the anchors `^` and `$`, and quantifiers
`* + ? {m} {m,} {,n} {m,n}` in greedy, lazy (`?`) and possessive (`+`)
modes.  Malformed inputs — unbalanced brackets, a quantifier with nothing to
repeat (a quantified anchor included), a quantifier on a quantifier, inverted
repetition or range bounds, bad escapes, a reference to an undefined group —
are refused like `re.error`.  Lookaround, conditionals, inline flags and
hex/unicode escapes are outside the model and also refused. -/
def parseRx : Nat → PMode → Nat → List Char → Option (Rx × Nat × List Char)
  | 0, _, _, _ => none
  | Nat.succ fuel, .atom, gi, l =>
    match l with
    | [] => none
    | '(' :: '?' :: ':' :: rest =>
      (match parseRx fuel .alt gi rest with
       | some (r, gi2, ')' :: rest3) => some (r, gi2, rest3)
       | _ => none)
    | '(' :: '?' :: 'P' :: '<' :: rest =>
      (let ident := rest.takeWhile wordChar
       if ident.isEmpty then none
       else match rest.drop ident.length with
       | '>' :: rest2 =>
         (match parseRx fuel .alt (gi + 1) rest2 with
          | some (r, gi2, ')' :: rest3) => some (.grp (gi + 1) r, gi2, rest3)
          | _ => none)
       | _ => none)
    | '(' :: '?' :: _ => none
    | '(' :: rest =>
      (match parseRx fuel .alt (gi + 1) rest with
       | some (r, gi2, ')' :: rest3) => some (.grp (gi + 1) r, gi2, rest3)
       | _ => none)
    | '[' :: rest => (parseClass fuel rest).map fun r => (.cls r.1, gi, r.2)
    | '\\' :: d :: rest =>
      if d.isDigit && d != '0' then
        (let ds := (d :: rest).takeWhile Char.isDigit
         let n : Nat := ds.foldl (fun a c => a * 10 + (c.toNat - 48)) 0
         if decide (1 ≤ n) && decide (n ≤ gi) then
           some (.bref n, gi, (d :: rest).drop ds.length)
         else none)
      else (escAtom d).map fun r => (r, gi, rest)
    | '\\' :: [] => none
    | '.' :: rest => some (.cls dotChar, gi, rest)
    | '^' :: rest => some (.bol, gi, rest)
    | '$' :: rest => some (.eol, gi, rest)
    | c :: rest =>
      if c == ')' || c == '|' || c == '*' || c == '+' || c == '?' then none
      else if c == Char.ofNat 123 then
        (match braceBounds rest with
         | some _ => none
         | none => some (.chr c, gi, rest))
      else some (.chr c, gi, rest)
  | Nat.succ fuel, .sq, gi, l =>
    match l with
    | [] => some (.eps, gi, [])
    | ')' :: _ => some (.eps, gi, l)
    | '|' :: _ => some (.eps, gi, l)
    | _ =>
      match parseRx fuel .atom gi l with
      | none => none
      | some (r, gi2, rest) =>
        let quantified : Option (Rx × List Char) :=
          match quantKind rest with
          | none => some (r, rest)
          | some (k, rest2) =>
            if rxIsAssert r then none
            else
              let md : QMode × List Char :=
                match rest2 with
                | '?' :: t2 => (.lzy, t2)
                | '+' :: t2 => (.poss, t2)
                | _ => (.greedy, rest2)
              if (quantKind md.2).isSome then none
              else
                match k with
                | .qstar => some (.star r md.1, md.2)
                | .qplus => some (.plus r md.1, md.2)
                | .qopt => some (.opt r md.1, md.2)
                | .qrep lo hi =>
                  match hi with
                  | some h =>
                    if h < lo then none else some (desugarRep r md.1 lo (some h), md.2)
                  | none => some (desugarRep r md.1 lo none, md.2)
        match quantified with
        | none => none
        | some (r2, rest3) =>
          match parseRx fuel .sq gi2 rest3 with
          | none => none
          | some (rs, gi3, rest4) => some (.seq r2 rs, gi3, rest4)
  | Nat.succ fuel, .alt, gi, l =>
    match parseRx fuel .sq gi l with
    | none => none
    | some (r, gi2, rest) =>
      match rest with
      | '|' :: rest2 =>
        (match parseRx fuel .alt gi2 rest2 with
         | none => none
         | some (r2, gi3, rest3) => some (.alt r r2, gi3, rest3))
      | _ => some (r, gi2, rest)

/-- Modelled `re.compile`: parse a pattern string into an `Rx` and its number
of capture groups; `none` models `re.error`.  The accepted syntax is listed
at `parseRx` and covers every pattern the repository passes to
`find_all_matches`. -/
def compilePattern (pattern : String) : Option (Rx × Nat) :=
  match parseRx (4 * pattern.length + 8) .alt 0 pattern.data with
  | some (r, gi, []) => some (r, gi)
  | _ => none

/-- The values `re.findall` returns: plain strings when the pattern has at
most one capture group, tuples of group contents otherwise. -/
inductive PyVal where
  | s (v : String)
  | tup (vs : List String)
deriving DecidableEq

/-- `re.findall` on a compiled pattern with `nGroups` capture groups: the
matched text per match when the pattern has no groups, the content of group 1
when it has exactly one, and the tuple of all group contents otherwise. -/
def pyFindall (r : Rx) (nGroups : Nat) (t : List Char) : List PyVal :=
  (rxFindall r t).map fun m =>
    if nGroups == 0 then .s ⟨m.1⟩
    else if nGroups == 1 then .s ⟨groupOf m.2 1⟩
    else .tup ((List.range nGroups).map fun i => ⟨groupOf m.2 (i + 1)⟩)

/-- The matched substrings of the scan, regardless of capture groups: what
the specification calls "the list of matching substrings". -/
def matchedSubstrings (r : Rx) (t : List Char) : List String :=
  (rxFindall r t).map fun m => ⟨m.1⟩

/-- `find_all_matches` from regularexpressions1.py: compile the pattern and
run findall; a compilation failure is re-raised as
`ValueError(f"Invalid regex pattern: {pattern}")` chained to the `re.error`. -/
def find_all_matches (pattern text : String) : Except String (List PyVal) :=
  match compilePattern pattern with
  | none => .error ("Invalid regex pattern: " ++ pattern)
  | some (r, n) => .ok (pyFindall r n text.data)

/-! ### Support lemmas -/

lemma charMatch_self (c : Char) : charMatch true c c = true := by
  simp [charMatch]

lemma str_mk_append (a b : String) : (⟨a.data ++ b.data⟩ : String) = a ++ b := by
  cases a
  cases b
  rfl

lemma qmark_data : ("?" : String).data = ['?'] := rfl

lemma append_ne_empty (a b : String) (h : a.length ≠ 0) : a ++ b ≠ "" := by
  intro he
  have hl := congrArg String.length he
  rw [String.length_append] at hl
  simp [String.length_empty] at hl
  omega

lemma length_append_ne_zero (a b : String) (h : a.length ≠ 0) :
    (a ++ b).length ≠ 0 := by
  rw [String.length_append]
  omega

lemma dotChar_eq_true {c : Char} (h : c ≠ '\n') : dotChar c = true := by
  simp [dotChar]
  exact h

lemma starF_dot_consume (l : List Char) (g : Groups)
    (h : ∀ c ∈ l, dotChar c = true) :
    ∃ t, starF (reMatch true (.cls dotChar)) l.length l g = ([], g) :: t := by
  induction l generalizing g with
  | nil => exact ⟨[], rfl⟩
  | cons c cs ih =>
    obtain ⟨t, ht⟩ := ih (g := g) (fun d hd => h d (List.mem_cons_of_mem _ hd))
    refine ⟨t ++ [(c :: cs, g)], ?_⟩
    have hc : dotChar c = true := h c (List.mem_cons_self c cs)
    simp [starF, reMatch, hc, Nat.lt_succ_self, ht]

lemma reMatch_plus_dot (c : Char) (cs : List Char) (g : Groups)
    (h : ∀ d ∈ c :: cs, dotChar d = true) :
    ∃ t, reMatch true (.plus (.cls dotChar)) (c :: cs) g = ([], g) :: t := by
  obtain ⟨t, ht⟩ := starF_dot_consume cs g (fun d hd => h d (List.mem_cons_of_mem _ hd))
  have hc : dotChar c = true := h c (List.mem_cons_self c cs)
  exact ⟨t, by simp [reMatch, hc, Nat.lt_succ_self, ht]⟩

lemma fullmatch_capStarDot (l : List Char) (h : ∀ c ∈ l, dotChar c = true) :
    fullmatchRe true capStarDot l = some [(1, l)] := by
  obtain ⟨t, ht⟩ := starF_dot_consume l [] h
  simp [fullmatchRe, capStarDot, reMatch, ht, List.take_length]

lemma reMatch_grp (ci : Bool) (i : Nat) (r : Re) (s : List Char) (g : Groups) :
    reMatch ci (.grp i r) s g =
      (reMatch ci r s g).map fun p =>
        (p.1, (i, s.take (s.length - p.1.length)) :: p.2) := rfl

lemma reMatch_seq_eq (ci : Bool) (a b : Re) (s : List Char) (g : Groups) :
    reMatch ci (.seq a b) s g =
      (reMatch ci a s g).flatMap fun p => reMatch ci b p.1 p.2 := rfl

lemma fullmatch_capPlusDot (l : List Char) (hne : l ≠ [])
    (h : ∀ c ∈ l, dotChar c = true) :
    fullmatchRe true capPlusDot l = some [(1, l)] := by
  obtain ⟨c, cs, rfl⟩ := List.exists_cons_of_ne_nil hne
  obtain ⟨t, ht⟩ := reMatch_plus_dot c cs [] h
  rw [fullmatchRe, capPlusDot, reMatch_grp, ht]
  simp [List.take_length]

lemma reMatch_litL_self (p : List Char) (l : List Char) (g : Groups) :
    reMatch true (litL p) (p ++ l) g = [(l, g)] := by
  induction p generalizing g with
  | nil => simp [litL, reMatch]
  | cons c cs ih => simp [litL, reMatch, charMatch_self, ih]

lemma rule1_fullmatch_none (d : Char) (l : List Char)
    (hd : charMatch true 'I' d = false) :
    fullmatchRe true (.seq (lit "I need ") capPlusDot) (d :: l) = none := by
  have hlit : lit "I need " = .seq (.chr 'I') (litL (" need ".data)) := rfl
  rw [fullmatchRe, hlit]
  simp [reMatch, hd]

lemma rule2_fullmatch (p l : List Char) (hne : l ≠ [])
    (h : ∀ c ∈ l, dotChar c = true) :
    fullmatchRe true (.seq (litL p) (.seq capPlusDot (.opt (.chr '?')))) (p ++ l) =
      some [(1, l)] := by
  obtain ⟨c, cs, rfl⟩ := List.exists_cons_of_ne_nil hne
  obtain ⟨t, ht⟩ := reMatch_plus_dot c cs [] h
  rw [fullmatchRe, reMatch_seq_eq, reMatch_litL_self]
  simp only [List.flatMap_cons, List.flatMap_nil, List.append_nil]
  rw [reMatch_seq_eq, capPlusDot, reMatch_grp, ht]
  simp [reMatch, List.take_length]

lemma pyStripL_id (c d : Char) (m : List Char) (hc : isWs c = false)
    (hd : isWs d = false) : pyStripL (c :: (m ++ [d])) = c :: (m ++ [d]) := by
  simp [pyStripL, List.dropWhile_cons, hc, hd]

lemma scanRules_isSome (rules : List (Re × (String → String))) (t : List Char)
    (h : ∃ rf ∈ rules, (fullmatchRe true rf.1 t).isSome) :
    (scanRules rules t).isSome := by
  induction rules with
  | nil => simp at h
  | cons rf0 rest ih =>
    obtain ⟨r, f⟩ := rf0
    obtain ⟨rf, hmem, hsome⟩ := h
    rw [scanRules]
    cases hm : fullmatchRe true r t with
    | some g => simp
    | none =>
      rcases List.mem_cons.mp hmem with rfl | hmem'
      · rw [hm] at hsome
        simp at hsome
      · exact ih ⟨rf, hmem', hsome⟩

lemma scanRules_some_shape (rules : List (Re × (String → String))) (t : List Char)
    (v : String) (h : scanRules rules t = some v) :
    ∃ rf ∈ rules, ∃ x : String, v = rf.2 x := by
  induction rules with
  | nil => simp [scanRules] at h
  | cons rf0 rest ih =>
    obtain ⟨r, f⟩ := rf0
    rw [scanRules] at h
    cases hm : fullmatchRe true r t with
    | some g =>
      rw [hm] at h
      exact ⟨(r, f), List.mem_cons_self _ _, ⟨_, (Option.some.inj h).symm⟩⟩
    | none =>
      rw [hm] at h
      obtain ⟨rf, hmem, x, hx⟩ := ih h
      exact ⟨rf, List.mem_cons_of_mem _ hmem, x, hx⟩

lemma eliza_response_ne_empty (rf : Re × (String → String))
    (h : rf ∈ elizaRules) (x : String) : rf.2 x ≠ "" := by
  simp [elizaRules] at h
  rcases h with h | h | h | h | h | h | h | h <;> subst h <;>
    first
      | (show ("Please tell me more." : String) ≠ ""
         decide)
      | (apply append_ne_empty
         repeat apply length_append_ne_zero
         all_goals decide)

lemma charToNat_ofNat (n : Nat) (h : Nat.isValidChar n) :
    (Char.ofNat n).toNat = n := by
  unfold Char.ofNat
  simp [Char.ofNatAux, h]
  rfl

lemma isWs_pyLowerChar (c : Char) : isWs (pyLowerChar c) = isWs c := by
  rw [pyLowerChar]
  split
  · rename_i h
    simp only [Bool.and_eq_true, decide_eq_true_eq] at h
    have hv : (Char.ofNat (c.toNat + 32)).toNat = c.toNat + 32 :=
      charToNat_ofNat _ (Or.inl (by omega))
    have hA : isWs (Char.ofNat (c.toNat + 32)) = false := by
      simp [isWs, hv]
      omega
    have hB : isWs c = false := by
      simp [isWs]
      omega
    rw [hA, hB]
  · rfl

lemma pyLowerChar_space : pyLowerChar ' ' = ' ' := rfl

lemma joinWords_map_pyLower (L : List (List Char)) :
    (joinWords L).map pyLowerChar = joinWords (L.map (List.map pyLowerChar)) := by
  induction L with
  | nil => rfl
  | cons w ws ih =>
    cases ws with
    | nil => rfl
    | cons v vs =>
      show (w ++ ' ' :: joinWords (v :: vs)).map pyLowerChar =
        w.map pyLowerChar ++ ' ' :: joinWords ((v :: vs).map (List.map pyLowerChar))
      simp [List.map_append, pyLowerChar_space, ih]

lemma pySplitAux_append_word (w : List Char) (hw : ∀ c ∈ w, isWs c = false) :
    ∀ (t acc : List Char), pySplitAux (w ++ t) acc = pySplitAux t (w.reverse ++ acc) := by
  induction w with
  | nil => intro t acc; simp
  | cons c cs ih =>
    intro t acc
    have hc : isWs c = false := hw c (List.mem_cons_self _ _)
    show pySplitAux (c :: (cs ++ t)) acc = _
    rw [pySplitAux]
    simp only [hc, Bool.false_eq_true, if_false]
    rw [ih (fun d hd => hw d (List.mem_cons_of_mem _ hd)) t (c :: acc)]
    simp [List.append_assoc]

lemma isWs_space : isWs ' ' = true := rfl

lemma pyWords_joinWords (L : List (List Char))
    (h : ∀ w ∈ L, w ≠ [] ∧ ∀ c ∈ w, isWs c = false) :
    pyWords (joinWords L) = L := by
  induction L with
  | nil => rfl
  | cons w ws ih =>
    obtain ⟨hw_ne, hw_ws⟩ := h w (List.mem_cons_self _ _)
    have hrev : (w.reverse).isEmpty = false := by
      simp [List.isEmpty_iff]
      exact hw_ne
    cases ws with
    | nil =>
      show pySplitAux (joinWords [w]) [] = [w]
      have hjw : joinWords [w] = w ++ [] := by simp [joinWords]
      rw [hjw, pySplitAux_append_word w hw_ws]
      rw [pySplitAux]
      simp [List.append_nil, hrev]
    | cons v vs =>
      show pySplitAux (joinWords (w :: v :: vs)) [] = w :: v :: vs
      have hjw : joinWords (w :: v :: vs) = w ++ ' ' :: joinWords (v :: vs) := rfl
      rw [hjw, pySplitAux_append_word w hw_ws]
      rw [pySplitAux]
      simp only [isWs_space, if_true, List.append_nil, hrev, Bool.false_eq_true,
        if_false, List.reverse_reverse]
      exact congrArg (w :: ·) (ih fun x hx => h x (List.mem_cons_of_mem _ hx))

/-- Whether `find_all_matches` raises (returns the ValueError) rather than a
result list. -/
def findallRaises (pattern text : String) : Bool :=
  match find_all_matches pattern text with
  | .error _ => true
  | .ok _ => false

/-! ### Claim theorems -/

/-- C1 (code_bug evidence): on the input "That U.S.A. poster-print costs
$12.40...", tokenize_text does not return the token strings the claim lists;
because the tokenizer pattern contains three capture groups, findall returns
the 3-tuples of group captures, and no component ever equals "U.S.A.",
"poster-print", "$12.40" or "That". -/
theorem tokenize_text_example_group_tuples :
    tokenize_text "That U.S.A. poster-print costs $12.40..." =
      [("", "", ""), ("A.", "", ""), ("", "-print", ""), ("", "", ""),
        ("", "", ".40"), ("", "", "")] := by decide

/-- C2 (counterexample): the one-space string is whitespace-only and not
empty, yet text_analysis_pipeline completes on it without raising, refuting
"raises if and only if the text is empty or whitespace-only". -/
theorem pipeline_whitespace_only_not_rejected :
    (" " : String).data.all isWs = true ∧ (" " : String) ≠ "" ∧
      pipelineFails (text_analysis_pipeline " ") = false :=
  ⟨by decide, by decide, rfl⟩

/-- C2 (amended): text_analysis_pipeline raises the ValueError exactly when
its text argument is the empty string (Python truth testing), and completes
without raising on every other string. -/
theorem pipeline_error_iff_empty (text : String) :
    pipelineFails (text_analysis_pipeline text) = true ↔ text = "" := by
  by_cases h : text = "" <;> simp [text_analysis_pipeline, pipelineFails, h]

/-- C3 (counterexample): "a\nb" is its own trimmed form, and the final
catch-all pattern `(.*)` does not fullmatch it, because `.` does not match a
newline; so the catch-all does not match every trimmed input. -/
theorem catchall_fails_on_newline :
    pyStripL ("a\nb" : String).data = ("a\nb" : String).data ∧
      fullmatchRe true capStarDot (("a\nb" : String).data) = none :=
  ⟨by decide, by decide⟩

/-- C3 (amended): get_eliza_response is total and returns a non-empty string
for every input; the catch-all rule fullmatches every newline-free trimmed
input, and inputs whose trimmed form contains a newline get the fixed
non-empty fallback reply. -/
theorem eliza_respond_total_nonempty :
    (∀ s : String, get_eliza_response s ≠ "") ∧
      (∀ s : String, (∀ c ∈ pyStripL s.data, c ≠ '\n') →
        (fullmatchRe true capStarDot (pyStripL s.data)).isSome) := by
  constructor
  · intro s
    rw [get_eliza_response]
    cases hscan : scanRules elizaRules (pyStripL s.data) with
    | none =>
      simp only [Option.getD_none]
      decide
    | some v =>
      simp only [Option.getD_some]
      obtain ⟨rf, hmem, x, rfl⟩ := scanRules_some_shape _ _ _ hscan
      exact eliza_response_ne_empty rf hmem x
  · intro s hnl
    rw [fullmatch_capStarDot _ (fun c hc => dotChar_eq_true (hnl c hc))]
    rfl

/-- C3 (witness): the totality theorem applied at the empty input and the
catch-all conjunct applied at "hi". -/
theorem eliza_respond_total_nonempty_witness :
    get_eliza_response "" ≠ "" ∧
      (fullmatchRe true capStarDot (pyStripL ("hi" : String).data)).isSome :=
  ⟨eliza_respond_total_nonempty.1 "", eliza_respond_total_nonempty.2 "hi" (by decide)⟩

/-- C4: get_eliza_response answers "I need help" with "Why do you need
help?" and "I am tired" with "How long have you been tired?". -/
theorem respond_need_help_am_tired :
    get_eliza_response "I need help" = "Why do you need help?" ∧
      get_eliza_response "I am tired" = "How long have you been tired?" :=
  ⟨by decide, by decide⟩

/-- C5: get_eliza_response answers "I can't sleep" with "What makes you think
you can't sleep?", and "hello there" falls through to the catch-all reply
"Please tell me more.". -/
theorem respond_cant_sleep_hello_there :
    get_eliza_response ("I can" ++ apos ++ "t sleep") =
        "What makes you think you can" ++ apos ++ "t sleep?" ∧
      get_eliza_response "hello there" = "Please tell me more." :=
  ⟨by decide, by decide⟩

/-- C6: reflect lowercases, splits on whitespace preserving order, maps each
word through the reflections table (keys replaced by their values, other
words kept), and rejoins with single spaces: on any single-space joining of
non-empty whitespace-free words it equals the word-wise lowercase-and-lookup
rejoined with single spaces; and reflect "i am happy" = "you are happy". -/
theorem reflect_splits_maps_rejoins :
    (∀ ws : List String,
        (∀ w ∈ ws, w.data ≠ [] ∧ ∀ c ∈ w.data, isWs c = false) →
        reflect (joinSpace ws) = joinSpace (ws.map fun w => reflectWord (pyLower w))) ∧
      reflect "i am happy" = "you are happy" := by
  constructor
  · intro ws h
    have hlow : ∀ w ∈ (ws.map String.data).map (List.map pyLowerChar),
        w ≠ [] ∧ ∀ c ∈ w, isWs c = false := by
      intro w hw
      simp only [List.map_map, List.mem_map, Function.comp] at hw
      obtain ⟨u, hu, rfl⟩ := hw
      refine ⟨?_, ?_⟩
      · simp only [ne_eq, List.map_eq_nil_iff]
        exact (h u hu).1
      · intro c hc
        obtain ⟨d, hd, rfl⟩ := List.mem_map.mp hc
        rw [isWs_pyLowerChar]
        exact (h u hu).2 d hd
    apply String.ext
    show joinWords ((pyWords ((joinWords (ws.map String.data)).map pyLowerChar)).map
        (fun w => (reflectWord ⟨w⟩).data)) =
      joinWords ((ws.map fun w => reflectWord (pyLower w)).map String.data)
    rw [joinWords_map_pyLower, pyWords_joinWords _ hlow]
    congr 1
    simp [List.map_map, Function.comp, pyLower]
  · decide

/-- C6 (witness): the splitting theorem applied to the word list
["i", "am", "happy"]. -/
theorem reflect_splits_maps_rejoins_witness :
    reflect (joinSpace ["i", "am", "happy"]) =
      joinSpace (["i", "am", "happy"].map fun w => reflectWord (pyLower w)) :=
  reflect_splits_maps_rejoins.1 ["i", "am", "happy"] (by decide)

/-- C7: heaps_law_estimation returns k * tokenCount ^ beta (real-number model
of the Python float arithmetic), returns 0 at tokenCount = 0 with the default
parameters, and is monotone non-decreasing in tokenCount for beta > 0,
k > 0. -/
theorem heaps_law_formula_zero_monotone :
    (∀ (n : Nat) (beta k : ℝ), heaps_law_estimation n beta k = k * (n : ℝ) ^ beta) ∧
      heaps_law_estimation 0 0.7 10.0 = 0 ∧
      ∀ (beta k : ℝ), 0 < beta → 0 < k → ∀ n m : Nat, n ≤ m →
        heaps_law_estimation n beta k ≤ heaps_law_estimation m beta k := by
  refine ⟨fun n beta k => rfl, ?_, ?_⟩
  · rw [heaps_law_estimation]
    rw [Nat.cast_zero, Real.zero_rpow (by norm_num : (0.7 : ℝ) ≠ 0), mul_zero]
  · intro beta k hb hk n m hnm
    rw [heaps_law_estimation, heaps_law_estimation]
    exact mul_le_mul_of_nonneg_left
      (Real.rpow_le_rpow (Nat.cast_nonneg n) (Nat.cast_le.mpr hnm) (le_of_lt hb))
      (le_of_lt hk)

/-- C7 (witness): monotonicity applied at beta = 0.7, k = 10, 2 ≤ 3. -/
theorem heaps_law_formula_zero_monotone_witness :
    heaps_law_estimation 2 0.7 10.0 ≤ heaps_law_estimation 3 0.7 10.0 :=
  heaps_law_formula_zero_monotone.2.2 0.7 10.0 (by norm_num) (by norm_num) 2 3
    (by norm_num)

/-- C8 (counterexample): the valid pattern "(cat|dog)s?" on text "cats"
returns the capture-group content "cat", not the matched substring "cats";
so find_all_matches does not return the list of matching substrings for
every valid pattern. -/
theorem find_all_matches_capture_group_counterexample :
    find_all_matches "(cat|dog)s?" "cats" = .ok [PyVal.s "cat"] ∧
      (compilePattern "(cat|dog)s?").map
          (fun rn => matchedSubstrings rn.1 ("cats" : String).data) =
        some ["cats"] ∧
      (PyVal.s "cat" ≠ PyVal.s "cats") :=
  ⟨rfl, rfl, by decide⟩

/-- C8 (amended): find_all_matches raises exactly when the pattern fails to
compile, the raised error carries the offending pattern string, and on every
compiling pattern it returns the findall result without raising — the
matched substrings without capture groups, the capture contents with them.
In particular every pattern the repository itself passes to
find_all_matches compiles and returns its match list: the word-boundary
patterns of demonstrate_negation, demonstrate_wildcards and
iterative_regex_example evaluate to the lists Python prints. -/
theorem find_all_matches_error_iff :
    (∀ p t : String,
        (findallRaises p t = true ↔ compilePattern p = none) ∧
          (compilePattern p = none →
            find_all_matches p t = .error ("Invalid regex pattern: " ++ p)) ∧
          ∀ r n, compilePattern p = some (r, n) →
            find_all_matches p t = .ok (pyFindall r n t.data)) ∧
      find_all_matches "\\b[Tt]he\\b"
          "The theater is near the cathedral. Then, they left." =
        .ok [.s "The", .s "the"] ∧
      find_all_matches "\\bb..t\\b" "bat bet bit bot but bait belt boot" =
        .ok [.s "bait", .s "belt", .s "boot"] ∧
      find_all_matches "\\b[^aeiouAEIOU\\s]\\w+" "Apple banana orange pear grape" =
        .ok [.s "banana", .s "pear", .s "grape"] ∧
      find_all_matches "\\d+" "Order numbers: 12345, 67890, and 24680." =
        .ok [.s "12345", .s "67890", .s "24680"] := by
  refine ⟨fun p t => ?_, rfl, rfl, rfl, rfl⟩
  cases hc : compilePattern p with
  | none =>
    refine ⟨by simp [findallRaises, find_all_matches, hc], ?_, ?_⟩
    · intro _
      simp [find_all_matches, hc]
    · intro r n hrn
      exact Option.noConfusion hrn
  | some rn =>
    obtain ⟨r0, n0⟩ := rn
    refine ⟨by simp [findallRaises, find_all_matches, hc], ?_, ?_⟩
    · intro hnone
      exact Option.noConfusion hnone
    · intro r n hrn
      obtain ⟨rfl, rfl⟩ : r0 = r ∧ n0 = n := by
        have h2 := Option.some.inj hrn
        exact ⟨congrArg Prod.fst h2, congrArg Prod.snd h2⟩
      simp [find_all_matches, hc]

/-- C8 (witness): the error case applied to the malformed pattern "(". -/
theorem find_all_matches_error_iff_witness :
    find_all_matches "(" "x" = .error ("Invalid regex pattern: " ++ "(") :=
  (find_all_matches_error_iff.1 "(" "x").2.1 rfl

/-- C9 (counterexample): on input "a\nb" no rule in the table fullmatches (a
newline defeats even the catch-all), so the rule loop falls through and
get_eliza_response returns the final fallback string — the fallback return is
reachable. -/
theorem eliza_fallback_reached_on_newline :
    scanRules elizaRules (pyStripL ("a\nb" : String).data) = none ∧
      get_eliza_response "a\nb" = elizaFallback :=
  ⟨by decide, by decide⟩

/-- C9 (amended): whenever the trimmed input contains no newline, some rule
in the table fullmatches it, so the rule loop returns before the fallback;
the fallback is reachable only for trimmed inputs containing a newline. -/
theorem eliza_loop_returns_before_fallback (s : String)
    (h : ∀ c ∈ pyStripL s.data, c ≠ '\n') :
    (scanRules elizaRules (pyStripL s.data)).isSome := by
  apply scanRules_isSome
  refine ⟨(capStarDot, fun _ => "Please tell me more."), ?_, ?_⟩
  · simp [elizaRules]
  · rw [fullmatch_capStarDot _ (fun c hc => dotChar_eq_true (h c hc))]
    rfl

/-- C9 (witness): the amended theorem applied at the input "hello". -/
theorem eliza_loop_returns_before_fallback_witness :
    (scanRules elizaRules (pyStripL ("hello" : String).data)).isSome :=
  eliza_loop_returns_before_fallback "hello" (by decide)

/-- C10 (counterexample): with w = "a\nb" (non-empty), the input
"Why don't you a\nb?" matches no rule at all — the newline defeats `(.+)` —
so nothing is captured and the reply is not the reflected form the claim
requires. -/
theorem why_dont_you_newline_counterexample :
    get_eliza_response ("Why don" ++ apos ++ "t you " ++ "a\nb" ++ "?") ≠
      "Do you really think I don" ++ apos ++ "t " ++ reflect ("a\nb" ++ "?") ++ "?" := by
  decide

/-- C10 (amended): for every non-empty newline-free w, the greedy `(.+)` of
the rule "Why don't you (.+)\??" consumes the trailing question mark, so the
rule captures w ++ "?" whole and the reply applies reflect to that whole
fragment. -/
theorem why_dont_you_captures_trailing_question (w : String) (h1 : w ≠ "")
    (h2 : ∀ c ∈ w.data, c ≠ '\n') :
    get_eliza_response ("Why don" ++ apos ++ "t you " ++ w ++ "?") =
      "Do you really think I don" ++ apos ++ "t " ++ reflect (w ++ "?") ++ "?" := by
  have hwd : w.data ≠ [] := fun hw => h1 (String.ext (by rw [hw]))
  have htail_ne : w.data ++ ['?'] ≠ [] := by simp
  have htail_dot : ∀ c ∈ w.data ++ ['?'], dotChar c = true := by
    intro c hc
    rcases List.mem_append.mp hc with hx | hx
    · exact dotChar_eq_true (h2 c hx)
    · rw [List.mem_singleton.mp hx]
      rfl
  have hdata : ("Why don" ++ apos ++ "t you " ++ w ++ "?").data =
      ("Why don" ++ apos ++ "t you ").data ++ (w.data ++ ['?']) := by
    simp [String.data_append, qmark_data, List.append_assoc]
  have hlitW : ("Why don" ++ apos ++ "t you ").data =
      'W' :: ("hy don" ++ apos ++ "t you ").data := rfl
  have hshape : ("Why don" ++ apos ++ "t you ").data ++ (w.data ++ ['?']) =
      'W' :: ((("hy don" ++ apos ++ "t you ").data ++ w.data) ++ ['?']) := by
    rw [hlitW]
    simp [List.append_assoc]
  have hstrip : pyStripL (("Why don" ++ apos ++ "t you ").data ++ (w.data ++ ['?'])) =
      ("Why don" ++ apos ++ "t you ").data ++ (w.data ++ ['?']) := by
    rw [hshape, pyStripL_id 'W' '?' _ rfl rfl, ← hshape]
  have hr1 : fullmatchRe true (.seq (lit "I need ") capPlusDot)
      (("Why don" ++ apos ++ "t you ").data ++ (w.data ++ ['?'])) = none := by
    rw [hshape]
    exact rule1_fullmatch_none 'W' _ rfl
  have hr2 : fullmatchRe true
      (.seq (lit ("Why don" ++ apos ++ "t you ")) (.seq capPlusDot (.opt (.chr '?'))))
      (("Why don" ++ apos ++ "t you ").data ++ (w.data ++ ['?'])) =
      some [(1, w.data ++ ['?'])] := by
    have hl : lit ("Why don" ++ apos ++ "t you ") =
        litL (("Why don" ++ apos ++ "t you ").data) := rfl
    rw [hl]
    exact rule2_fullmatch _ _ htail_ne htail_dot
  rw [get_eliza_response, hdata, hstrip]
  simp only [elizaRules, scanRules, hr1, hr2, Option.getD_some]
  have hg : groupOf [(1, w.data ++ ['?'])] 1 = w.data ++ ['?'] := by
    simp [groupOf]
  rw [hg]
  have hmk : (⟨w.data ++ ['?']⟩ : String) = w ++ "?" := by
    rw [← qmark_data]
    exact str_mk_append w "?"
  rw [hmk]

/-- C10 (witness): the amended theorem applied at w = "rest". -/
theorem why_dont_you_captures_trailing_question_witness :
    get_eliza_response ("Why don" ++ apos ++ "t you " ++ "rest" ++ "?") =
      "Do you really think I don" ++ apos ++ "t " ++ reflect ("rest" ++ "?") ++ "?" :=
  why_dont_you_captures_trailing_question "rest" (by decide) (by decide)

end SLP
